import Mathlib

/-!
Verification of the ECSchnorr signer (`src/ecpy/ecschnorr.py`) against its
natural-language specification.

The file shallowly embeds the signer: byte strings are `List Nat`
(each entry a byte value), machine integers are `Nat`/`Int` with explicit
modular arithmetic, Python `None` becomes `Option`, and a raised Python
exception becomes `Except.error`.  The elliptic-curve, key, codec and hash
collaborators live outside the embedded source file and are modelled from the
specification (sections 3 and 6): a curve is a record of its order, bit size,
generator and point operations, and a hasher is a pure function from input
bytes to digest bytes.
-/

namespace ECpy

/-- Big-endian serialization of a natural number into exactly `sz` bytes,
modelling Python `v.to_bytes(sz, 'big')` (for `v < 256 ^ sz`, where Python
does not raise). -/
def toBytesBE : Nat → Nat → List Nat
  | 0, _ => []
  | sz + 1, v => toBytesBE sz (v / 256) ++ [v % 256]

/-- Big-endian deserialization, modelling Python `int.from_bytes(l, 'big')`. -/
def fromBytesBE (l : List Nat) : Nat :=
  l.foldl (fun acc b => acc * 256 + b) 0

/-- A point with its two affine coordinates, modelling `ecpy.curves.Point`
through the interface the signer uses (`.x`, `.y`). -/
structure Point where
  x : Nat
  y : Nat
deriving DecidableEq, Repr

/-- Modelled from the spec: the Curve collaborator (spec sections 3 and 6).
The signer consumes only the order `n`, the generator `G`, the bit size
(`curve.size`, shifted right by 3 to obtain the coordinate byte width) and
the point operations scalar-multiply, add and negate; subtraction is
addition of the negation. -/
structure Curve where
  order : Nat
  size : Nat
  generator : Point
  smul : Nat → Point → Point
  add : Point → Point → Point
  neg : Point → Point

/-- Point subtraction, defined as addition of the negation (spec section 6). -/
def Curve.sub (C : Curve) (P Q : Point) : Point :=
  C.add P (C.neg Q)

/-- Modelled from the spec: a private key is a scalar `d` bound to a curve;
the signer checks for an absent curve (`pv_key.curve == None`). -/
structure ECPrivateKey where
  d : Nat
  curve : Option Curve

/-- Modelled from the spec: a public key is a point `W` bound to a curve. -/
structure ECPublicKey where
  W : Point
  curve : Curve

/-- The structured value carried by an encoded signature: `some (r, s)` for a
well-formed encoding, `none` for a malformed one (whose decoding fails). -/
abbrev Sig := Option (Nat × Nat)

/-- Modelled from the spec: the Signature Codec collaborator, `encode`
direction.  The wire format tag is abstract; encoding always succeeds and
carries the pair `(r, s)`. -/
def encode_sig (r s : Nat) (_fmt : String) : Sig :=
  some (r, s)

/-- Modelled from the spec: the Signature Codec collaborator, `decode`
direction.  A malformed value decodes to a null `r` (the spec's
`(null, null)`; the second component is never inspected when the first is
null, so it is rendered as `0`). -/
def decode_sig (sig : Sig) (_fmt : String) : Option Nat × Nat :=
  match sig with
  | some (r, s) => (some r, s)
  | none => (none, 0)

/-- The ECSchnorr signer configuration: hash constructor, output format,
retry bound and variant tag, exactly the fields stored by `__init__`. -/
structure ECSchnorr where
  hasher : List Nat → List Nat
  fmt : String
  maxtries : Nat
  option : String

/-- `ECSchnorr.__init__`: reject an unrecognized variant tag, then an
unsupported output format (`formats` stands for `list_formats()` of the
codec collaborator), then store the hasher, format, a retry bound of 10 and
the variant tag. -/
def ECSchnorr.mk_checked (formats : List String) (hasher : List Nat → List Nat)
    (option fmt : String) : Except String ECSchnorr :=
  if option ∉ ["ISO", "ISOx", "BSI", "LIBSECP"] then
    .error ("ECSchnorr option not supported: " ++ option)
  else if fmt ∉ formats then
    .error ("ECSchnorr format not supported: " ++ fmt)
  else
    .ok { hasher := hasher, fmt := fmt, maxtries := 10, option := option }

/-- `ECSchnorr._do_sign`.  Faithful translation of the four variant branches:
a raised exception is `Except.error`, a rejected nonce is `Option.none`, and
a produced signature is the codec-encoded pair.  `Q.y % 2 = 1` models the
parity test `Q.y & 1`; the Python subtraction `(k - r*d) % n` on signed
integers is rendered through `Int` with `Int.toNat` (the result of `% n`
with `n > 0` is non-negative in both languages).  An option tag outside the
four recognized ones leaves `r`, `s` unbound in Python and raises
`NameError` at the final `encode_sig` call. -/
def ECSchnorr.do_sign (S : ECSchnorr) (msg : List Nat) (pv : ECPrivateKey)
    (k : Nat) : Except String (Option Sig) :=
  match pv.curve with
  | none => .error "private key haz no curve"
  | some curve =>
    let n := curve.order
    let G := curve.generator
    let size := curve.size >>> 3
    let Q := curve.smul k G
    if S.option = "ISO" then
      let r := fromBytesBE (S.hasher (toBytesBE size Q.x ++ toBytesBE size Q.y ++ msg)) % n
      let s := (k + r * pv.d) % n
      if r = 0 ∨ s = 0 then .ok none
      else .ok (some (encode_sig r s S.fmt))
    else if S.option = "ISOx" then
      let r := fromBytesBE (S.hasher (toBytesBE size Q.x ++ msg)) % n
      let s := (k + r * pv.d) % n
      if r = 0 ∨ s = 0 then .ok none
      else .ok (some (encode_sig r s S.fmt))
    else if S.option = "BSI" then
      let r := fromBytesBE (S.hasher (msg ++ toBytesBE size (Q.x % n))) % n
      let s := (((k : Int) - (r : Int) * (pv.d : Int)) % (n : Int)).toNat
      if r = 0 ∨ s = 0 then .ok none
      else .ok (some (encode_sig r s S.fmt))
    else if S.option = "LIBSECP" then
      let k2 := if Q.y % 2 = 1 then n - k else k
      let Q2 := if Q.y % 2 = 1 then curve.smul (n - k) G else Q
      let h := fromBytesBE (S.hasher (toBytesBE size Q2.x ++ msg))
      if h = 0 ∨ h > n then .ok none
      else .ok (some (encode_sig Q2.x
        ((((k2 : Int) - (h : Int) * (pv.d : Int)) % (n : Int)).toNat) S.fmt))
    else .error "NameError: r"

/-- `ECSchnorr.sign_k`: signing with a caller-provided nonce delegates to
`_do_sign`. -/
def ECSchnorr.sign_k (S : ECSchnorr) (msg : List Nat) (pv : ECPrivateKey)
    (k : Nat) : Except String (Option Sig) :=
  S.do_sign msg pv k

/-- The retry loop body of `ECSchnorr.sign`: `fuel` remaining iterations,
`i` the current loop index; each iteration draws `rng i` (the i-th value of
the random-scalar collaborator) and returns the first non-null signature. -/
def ECSchnorr.signAttempts (S : ECSchnorr) (msg : List Nat) (pv : ECPrivateKey)
    (rng : Nat → Nat) : Nat → Nat → Except String (Option Sig)
  | 0, _ => .ok none
  | fuel + 1, i =>
    match S.do_sign msg pv (rng i) with
    | .error e => .error e
    | .ok (some sig) => .ok (some sig)
    | .ok none => S.signAttempts msg pv rng fuel (i + 1)

/-- `ECSchnorr.sign`: `for i in range(1, self.maxtries)` iterates the loop
index `i` over `1, ..., maxtries - 1`, hence `maxtries - 1` iterations. -/
def ECSchnorr.sign (S : ECSchnorr) (msg : List Nat) (pv : ECPrivateKey)
    (rng : Nat → Nat) : Except String (Option Sig) :=
  S.signAttempts msg pv rng (S.maxtries - 1) 1

/-- `ECSchnorr.verify`.  Faithful translation: decode, short-circuit bound
checks in source order (`r == None or r > 2^(size*8)-1 or s == 0 or
s > n-1`), then the per-variant recomputation; the final comparison
`v == r` is shared.  An option tag outside the four leaves `v` unbound in
Python and raises `NameError`. -/
def ECSchnorr.verify (S : ECSchnorr) (msg : List Nat) (sig : Sig)
    (pu : ECPublicKey) : Except String Bool :=
  let curve := pu.curve
  let n := curve.order
  let G := curve.generator
  let size := curve.size >>> 3
  match decode_sig sig S.fmt with
  | (none, _) => .ok false
  | (some r, s) =>
    if 2 ^ (size * 8) - 1 < r ∨ s = 0 ∨ n - 1 < s then .ok false
    else if S.option = "ISO" then
      let Q := curve.sub (curve.smul s G) (curve.smul r pu.W)
      let v := fromBytesBE (S.hasher (toBytesBE size Q.x ++ toBytesBE size Q.y ++ msg)) % n
      .ok (v == r)
    else if S.option = "ISOx" then
      let Q := curve.sub (curve.smul s G) (curve.smul r pu.W)
      let v := fromBytesBE (S.hasher (toBytesBE size Q.x ++ msg)) % n
      .ok (v == r)
    else if S.option = "BSI" then
      let Q := curve.add (curve.smul s G) (curve.smul r pu.W)
      let v := fromBytesBE (S.hasher (msg ++ toBytesBE size (Q.x % n))) % n
      .ok (v == r)
    else if S.option = "LIBSECP" then
      let h := fromBytesBE (S.hasher (toBytesBE size r ++ msg))
      let R := curve.add (curve.smul s G) (curve.smul h pu.W)
      .ok (R.x % n == r)
    else .error "NameError: v"

/-- State-passing translation of `_do_sign`: the method reads the fields
`_hasher`, `option`, `fmt` of `self` and assigns none, so the outgoing
signer state is the incoming one. -/
def ECSchnorr.do_sign_st (S : ECSchnorr) (msg : List Nat) (pv : ECPrivateKey)
    (k : Nat) : Except String (Option Sig) × ECSchnorr :=
  (S.do_sign msg pv k, S)

/-- State-passing translation of the retry loop of `sign`: each iteration
threads the signer state returned by the previous `_do_sign` call. -/
def ECSchnorr.signAttempts_st (S : ECSchnorr) (msg : List Nat)
    (pv : ECPrivateKey) (rng : Nat → Nat) :
    Nat → Nat → Except String (Option Sig) × ECSchnorr
  | 0, _ => (.ok none, S)
  | fuel + 1, i =>
    let res := S.do_sign_st msg pv (rng i)
    match res.1 with
    | .error e => (.error e, res.2)
    | .ok (some sig) => (.ok (some sig), res.2)
    | .ok none => res.2.signAttempts_st msg pv rng fuel (i + 1)

/-- State-passing translation of `sign`. -/
def ECSchnorr.sign_st (S : ECSchnorr) (msg : List Nat) (pv : ECPrivateKey)
    (rng : Nat → Nat) : Except String (Option Sig) × ECSchnorr :=
  S.signAttempts_st msg pv rng (S.maxtries - 1) 1

/-- State-passing translation of `verify`: the method reads fields of
`self` and assigns none. -/
def ECSchnorr.verify_st (S : ECSchnorr) (msg : List Nat) (sig : Sig)
    (pu : ECPublicKey) : Except String Bool × ECSchnorr :=
  (S.verify msg sig pu, S)

/-- Modelled from the spec: properties of the Curve collaborator that the
specification guarantees (sections 3 and 6).  The curve order `n` is prime
and `G` generates the order-`n` cyclic group of points the signer touches,
so scalar multiples of `G` obey the cyclic-group identities below;
coordinates are non-negative integers below the field prime, which fits in
`size` bytes, as does the order. -/
structure CurveLaws (C : Curve) : Prop where
  order_pos : 0 < C.order
  smul_mod : ∀ a : Nat, C.smul (a % C.order) C.generator = C.smul a C.generator
  smul_smul : ∀ a b : Nat,
    C.smul a (C.smul b C.generator) = C.smul (a * b) C.generator
  add_smul : ∀ a b : Nat,
    C.add (C.smul a C.generator) (C.smul b C.generator)
      = C.smul (a + b) C.generator
  sub_smul : ∀ a b : Nat,
    C.sub (C.smul a C.generator) (C.smul b C.generator)
      = C.smul (a + (C.order - b % C.order)) C.generator
  x_lt : ∀ a : Nat, (C.smul a C.generator).x < 2 ^ ((C.size >>> 3) * 8)
  order_le : C.order ≤ 2 ^ ((C.size >>> 3) * 8)
  y_parity : ∀ a : Nat, a < C.order → 0 < a → (C.smul a C.generator).y % 2 = 1 →
    (C.smul (C.order - a) C.generator).y % 2 = 0

/-- A concrete order-5 curve instance used to evaluate the theorems on
explicit inputs: the point encoding a residue `z` is `(z, z)`, the
generator is `(1, 1)` and the coordinate width is one byte. -/
def toyCurve : Curve where
  order := 5
  size := 8
  generator := ⟨1, 1⟩
  smul := fun a P => ⟨a * P.x % 5, a * P.x % 5⟩
  add := fun P Q => ⟨(P.x + Q.x) % 5, (P.x + Q.x) % 5⟩
  neg := fun P => ⟨(5 - P.x % 5) % 5, (5 - P.x % 5) % 5⟩

/-- A second concrete order-5 curve whose point coordinates are shifted by 5,
so every x-coordinate exceeds the curve order (the spec only requires
coordinates below the field prime, here 11). -/
def shiftCurve : Curve where
  order := 5
  size := 8
  generator := ⟨6, 6⟩
  smul := fun a P => ⟨a * (P.x - 5) % 5 + 5, a * (P.x - 5) % 5 + 5⟩
  add := fun P Q => ⟨((P.x - 5) + (Q.x - 5)) % 5 + 5, ((P.x - 5) + (Q.x - 5)) % 5 + 5⟩
  neg := fun P => ⟨(5 - (P.x - 5) % 5) % 5 + 5, (5 - (P.x - 5) % 5) % 5 + 5⟩

/-- Multiplying by a reduced factor does not change a product mod `m`. -/
theorem mul_mod_absorb (a b m : Nat) : a * (b % m) % m = a * b % m := by
  conv_lhs => rw [Nat.mul_mod]
  rw [Nat.mod_mod_of_dvd _ dvd_rfl, ← Nat.mul_mod]

theorem toyCurve_laws : CurveLaws toyCurve := by
  constructor
  · decide
  · intro a
    simp only [toyCurve, Point.mk.injEq]
    omega
  · intro a b
    simp only [toyCurve, Point.mk.injEq]
    have h : b * 1 % 5 = b % 5 := by omega
    rw [h]
    have h2 := mul_mod_absorb a b 5
    constructor <;> omega
  · intro a b
    simp only [toyCurve, Point.mk.injEq]
    omega
  · intro a b
    simp only [toyCurve, Curve.sub, Point.mk.injEq]
    omega
  · intro a
    simp only [toyCurve]
    have h2 : (2 : Nat) ^ (8 >>> 3 * 8) = 256 := by decide
    omega
  · decide
  · intro a ha ha0
    simp only [toyCurve] at ha ⊢
    interval_cases a <;> decide

theorem shiftCurve_laws : CurveLaws shiftCurve := by
  constructor
  · decide
  · intro a
    simp only [shiftCurve, Point.mk.injEq]
    omega
  · intro a b
    simp only [shiftCurve, Point.mk.injEq]
    have h : b * (6 - 5) % 5 + 5 - 5 = b % 5 := by omega
    rw [h]
    have h2 := mul_mod_absorb a b 5
    constructor <;> omega
  · intro a b
    simp only [shiftCurve, Point.mk.injEq]
    omega
  · intro a b
    simp only [shiftCurve, Curve.sub, Point.mk.injEq]
    omega
  · intro a
    simp only [shiftCurve]
    have h2 : (2 : Nat) ^ (8 >>> 3 * 8) = 256 := by decide
    omega
  · decide
  · intro a ha ha0
    simp only [shiftCurve] at ha ⊢
    interval_cases a <;> decide

/-- Adding back a subtracted-and-reduced multiple: the verifier exponent
`s + (n - m % n)` recovers `k` modulo `n` when `s = (k + m) % n`. -/
theorem nat_add_roundtrip (k m n : Nat) (hn : 0 < n) :
    ((k + m) % n + (n - m % n)) % n = k % n := by
  have hdm : n * (m / n) + m % n = m := Nat.div_add_mod m n
  have hlt : m % n < n := Nat.mod_lt _ hn
  rw [Nat.mod_add_mod]
  have he : k + m + (n - m % n) = k + n * (m / n) + n := by omega
  rw [he, Nat.add_mod_right, Nat.add_mul_mod_self_left]

/-- The signed subtraction `(k - m) % n` performed over Python integers,
followed by adding `m` back, recovers `k` modulo `n`. -/
theorem int_sub_roundtrip (k m n : Nat) (hn : 0 < n) :
    ((((k : Int) - (m : Int)) % (n : Int)).toNat + m) % n = k % n := by
  have hn0 : ((n : Int)) ≠ 0 := by exact_mod_cast hn.ne'
  have h0 : 0 ≤ ((k : Int) - (m : Int)) % (n : Int) := Int.emod_nonneg _ hn0
  have hi : (((((k : Int) - (m : Int)) % (n : Int)).toNat : Int) + (m : Int)) % (n : Int)
      = (k : Int) % (n : Int) := by
    rw [Int.toNat_of_nonneg h0, Int.emod_add_emod, sub_add_cancel]
  have h2 : ((((((k : Int) - (m : Int)) % (n : Int)).toNat + m) % n : Nat) : Int)
      = ((k % n : Nat) : Int) := by
    push_cast
    exact_mod_cast hi
  exact_mod_cast h2

/-- Unfolding of `_do_sign` in the ISO branch. -/
theorem do_sign_ISO_eq (hasher : List Nat → List Nat) (fmt : String) (mt : Nat)
    (C : Curve) (d : Nat) (msg : List Nat) (k : Nat) :
    ECSchnorr.do_sign ⟨hasher, fmt, mt, "ISO"⟩ msg ⟨d, some C⟩ k =
      (let size := C.size >>> 3
       let Q := C.smul k C.generator
       let r := fromBytesBE (hasher (toBytesBE size Q.x ++ toBytesBE size Q.y ++ msg)) % C.order
       let s := (k + r * d) % C.order
       if r = 0 ∨ s = 0 then .ok none
       else .ok (some (encode_sig r s fmt))) := rfl

/-- Unfolding of `_do_sign` in the ISOx branch. -/
theorem do_sign_ISOx_eq (hasher : List Nat → List Nat) (fmt : String) (mt : Nat)
    (C : Curve) (d : Nat) (msg : List Nat) (k : Nat) :
    ECSchnorr.do_sign ⟨hasher, fmt, mt, "ISOx"⟩ msg ⟨d, some C⟩ k =
      (let size := C.size >>> 3
       let Q := C.smul k C.generator
       let r := fromBytesBE (hasher (toBytesBE size Q.x ++ msg)) % C.order
       let s := (k + r * d) % C.order
       if r = 0 ∨ s = 0 then .ok none
       else .ok (some (encode_sig r s fmt))) := rfl

/-- Unfolding of `_do_sign` in the BSI branch. -/
theorem do_sign_BSI_eq (hasher : List Nat → List Nat) (fmt : String) (mt : Nat)
    (C : Curve) (d : Nat) (msg : List Nat) (k : Nat) :
    ECSchnorr.do_sign ⟨hasher, fmt, mt, "BSI"⟩ msg ⟨d, some C⟩ k =
      (let size := C.size >>> 3
       let Q := C.smul k C.generator
       let r := fromBytesBE (hasher (msg ++ toBytesBE size (Q.x % C.order))) % C.order
       let s := (((k : Int) - (r : Int) * (d : Int)) % ((C.order : Nat) : Int)).toNat
       if r = 0 ∨ s = 0 then .ok none
       else .ok (some (encode_sig r s fmt))) := rfl

/-- Unfolding of `_do_sign` in the LIBSECP branch. -/
theorem do_sign_LIBSECP_eq (hasher : List Nat → List Nat) (fmt : String) (mt : Nat)
    (C : Curve) (d : Nat) (msg : List Nat) (k : Nat) :
    ECSchnorr.do_sign ⟨hasher, fmt, mt, "LIBSECP"⟩ msg ⟨d, some C⟩ k =
      (let n := C.order
       let size := C.size >>> 3
       let Q := C.smul k C.generator
       let k2 := if Q.y % 2 = 1 then n - k else k
       let Q2 := if Q.y % 2 = 1 then C.smul (n - k) C.generator else Q
       let h := fromBytesBE (hasher (toBytesBE size Q2.x ++ msg))
       if h = 0 ∨ h > n then .ok none
       else .ok (some (encode_sig Q2.x
         ((((k2 : Int) - (h : Int) * (d : Int)) % ((n : Nat) : Int)).toNat) fmt))) := rfl

/-- Unfolding of `verify` in the ISO branch on a well-formed signature. -/
theorem verify_ISO_eq (hasher : List Nat → List Nat) (fmt : String) (mt : Nat)
    (C : Curve) (W : Point) (msg : List Nat) (r s : Nat) :
    ECSchnorr.verify ⟨hasher, fmt, mt, "ISO"⟩ msg (some (r, s)) ⟨W, C⟩ =
      (let size := C.size >>> 3
       if 2 ^ (size * 8) - 1 < r ∨ s = 0 ∨ C.order - 1 < s then .ok false
       else
         let Q := C.sub (C.smul s C.generator) (C.smul r W)
         let v := fromBytesBE (hasher (toBytesBE size Q.x ++ toBytesBE size Q.y ++ msg)) % C.order
         .ok (v == r)) := rfl

/-- Unfolding of `verify` in the ISOx branch on a well-formed signature. -/
theorem verify_ISOx_eq (hasher : List Nat → List Nat) (fmt : String) (mt : Nat)
    (C : Curve) (W : Point) (msg : List Nat) (r s : Nat) :
    ECSchnorr.verify ⟨hasher, fmt, mt, "ISOx"⟩ msg (some (r, s)) ⟨W, C⟩ =
      (let size := C.size >>> 3
       if 2 ^ (size * 8) - 1 < r ∨ s = 0 ∨ C.order - 1 < s then .ok false
       else
         let Q := C.sub (C.smul s C.generator) (C.smul r W)
         let v := fromBytesBE (hasher (toBytesBE size Q.x ++ msg)) % C.order
         .ok (v == r)) := rfl

/-- Unfolding of `verify` in the BSI branch on a well-formed signature. -/
theorem verify_BSI_eq (hasher : List Nat → List Nat) (fmt : String) (mt : Nat)
    (C : Curve) (W : Point) (msg : List Nat) (r s : Nat) :
    ECSchnorr.verify ⟨hasher, fmt, mt, "BSI"⟩ msg (some (r, s)) ⟨W, C⟩ =
      (let size := C.size >>> 3
       if 2 ^ (size * 8) - 1 < r ∨ s = 0 ∨ C.order - 1 < s then .ok false
       else
         let Q := C.add (C.smul s C.generator) (C.smul r W)
         let v := fromBytesBE (hasher (msg ++ toBytesBE size (Q.x % C.order))) % C.order
         .ok (v == r)) := rfl

/-- Unfolding of `verify` in the LIBSECP branch on a well-formed signature. -/
theorem verify_LIBSECP_eq (hasher : List Nat → List Nat) (fmt : String) (mt : Nat)
    (C : Curve) (W : Point) (msg : List Nat) (r s : Nat) :
    ECSchnorr.verify ⟨hasher, fmt, mt, "LIBSECP"⟩ msg (some (r, s)) ⟨W, C⟩ =
      (let size := C.size >>> 3
       if 2 ^ (size * 8) - 1 < r ∨ s = 0 ∨ C.order - 1 < s then .ok false
       else
         let h := fromBytesBE (hasher (toBytesBE size r ++ msg))
         let R := C.add (C.smul s C.generator) (C.smul h W)
         .ok (R.x % C.order == r)) := rfl

/-- A failed bounds check makes `verify` return false in every variant. -/
theorem verify_bounds_false (S : ECSchnorr) (msg : List Nat) (r s : Nat)
    (pu : ECPublicKey)
    (hb : 2 ^ ((pu.curve.size >>> 3) * 8) - 1 < r ∨ s = 0 ∨ pu.curve.order - 1 < s) :
    S.verify msg (some (r, s)) pu = .ok false := by
  unfold ECSchnorr.verify
  simp only [decode_sig]
  rw [if_pos hb]

/-- A malformed signature (null decode) makes `verify` return false. -/
theorem verify_malformed_false (S : ECSchnorr) (msg : List Nat)
    (pu : ECPublicKey) : S.verify msg none pu = .ok false := rfl

/-- The retry loop returns a null overall result exactly when every attempt
in its index range is rejected. -/
theorem signAttempts_none_iff (S : ECSchnorr) (msg : List Nat)
    (pv : ECPrivateKey) (rng : Nat → Nat) :
    ∀ fuel i, (S.signAttempts msg pv rng fuel i = .ok none ↔
      ∀ j, i ≤ j → j < i + fuel → S.do_sign msg pv (rng j) = .ok none) := by
  intro fuel
  induction fuel with
  | zero =>
    intro i
    simp only [ECSchnorr.signAttempts]
    constructor
    · intro _ j h1 h2
      omega
    · intro _
      trivial
  | succ fuel ih =>
    intro i
    simp only [ECSchnorr.signAttempts]
    rcases hd : S.do_sign msg pv (rng i) with e | o
    · constructor
      · intro h
        exact absurd h (by simp)
      · intro h
        have := h i le_rfl (by omega)
        rw [hd] at this
        exact absurd this (by simp)
    · rcases o with _ | s2
      · rw [ih (i + 1)]
        constructor
        · intro h j h1 h2
          rcases Nat.eq_or_lt_of_le h1 with he | hlt
          · rw [← he]
            exact hd
          · exact h j hlt (by omega)
        · intro h j h1 h2
          exact h j (by omega) (by omega)
      · constructor
        · intro h
          exact absurd h (by simp)
        · intro h
          have := h i le_rfl (by omega)
          rw [hd] at this
          exact absurd this (by simp)

/-- The retry loop returns a signature exactly when some attempt in its
index range produces it and every earlier attempt is rejected. -/
theorem signAttempts_some_iff (S : ECSchnorr) (msg : List Nat)
    (pv : ECPrivateKey) (rng : Nat → Nat) :
    ∀ fuel i sig, (S.signAttempts msg pv rng fuel i = .ok (some sig) ↔
      ∃ j, i ≤ j ∧ j < i + fuel ∧ S.do_sign msg pv (rng j) = .ok (some sig) ∧
        ∀ j2, i ≤ j2 → j2 < j → S.do_sign msg pv (rng j2) = .ok none) := by
  intro fuel
  induction fuel with
  | zero =>
    intro i sig
    simp only [ECSchnorr.signAttempts]
    constructor
    · intro h
      exact absurd h (by simp)
    · rintro ⟨j, h1, h2, -, -⟩
      omega
  | succ fuel ih =>
    intro i sig
    simp only [ECSchnorr.signAttempts]
    rcases hd : S.do_sign msg pv (rng i) with e | o
    · constructor
      · intro h
        exact absurd h (by simp)
      · rintro ⟨j, h1, h2, h3, h4⟩
        rcases Nat.eq_or_lt_of_le h1 with he | hlt
        · rw [← he] at h3
          rw [hd] at h3
          exact absurd h3 (by simp)
        · have := h4 i le_rfl hlt
          rw [hd] at this
          exact absurd this (by simp)
    · rcases o with _ | s2
      · rw [ih (i + 1) sig]
        constructor
        · rintro ⟨j, h1, h2, h3, h4⟩
          refine ⟨j, by omega, by omega, h3, ?_⟩
          intro j2 hj1 hj2
          rcases Nat.eq_or_lt_of_le hj1 with he | hlt
          · rw [← he]
            exact hd
          · exact h4 j2 hlt hj2
        · rintro ⟨j, h1, h2, h3, h4⟩
          have hij : i ≠ j := by
            intro he
            rw [← he] at h3
            rw [hd] at h3
            exact absurd h3 (by simp)
          refine ⟨j, by omega, by omega, h3, ?_⟩
          intro j2 hj1 hj2
          exact h4 j2 (by omega) hj2
      · constructor
        · intro h
          refine ⟨i, le_rfl, by omega, ?_, ?_⟩
          · rw [hd]
            simpa using h
          · intro j2 h1 h2
            omega
        · rintro ⟨j, h1, h2, h3, h4⟩
          rcases Nat.eq_or_lt_of_le h1 with he | hlt
          · rw [← he] at h3
            rw [hd] at h3
            simpa using h3
          · have := h4 i le_rfl hlt
            rw [hd] at this
            exact absurd this (by simp)

/-- The state threaded through the retry loop is returned unchanged. -/
theorem signAttempts_st_snd (S : ECSchnorr) (msg : List Nat)
    (pv : ECPrivateKey) (rng : Nat → Nat) :
    ∀ fuel i, (S.signAttempts_st msg pv rng fuel i).2 = S := by
  intro fuel
  induction fuel with
  | zero =>
    intro i
    rfl
  | succ fuel ih =>
    intro i
    simp only [ECSchnorr.signAttempts_st, ECSchnorr.do_sign_st]
    rcases S.do_sign msg pv (rng i) with e | o
    · rfl
    · rcases o with _ | s2
      · exact ih (i + 1)
      · rfl

/-- C3: under the BSI variant, for every message, private key `d` with a
bound curve of order `n`, and nonce `k` with `Q = k*G`, `sign_with_nonce`
hashes `message ‖ bytes(Q.x mod n)` (fixed-width big-endian of length
`size`), sets `r = digest mod n` and `s = (k - r*d) mod n`, returns null
exactly when `r = 0` or `s = 0`, and otherwise returns the encoded pair
`(r, s)`. -/
theorem claim_C3_bsi_formula (S : ECSchnorr) (C : Curve) (pv : ECPrivateKey)
    (msg : List Nat) (k : Nat) (hopt : S.option = "BSI")
    (hcv : pv.curve = some C) :
    S.sign_k msg pv k =
      (let size := C.size >>> 3
       let Q := C.smul k C.generator
       let r := fromBytesBE (S.hasher (msg ++ toBytesBE size (Q.x % C.order))) % C.order
       let s := (((k : Int) - (r : Int) * (pv.d : Int)) % ((C.order : Nat) : Int)).toNat
       if r = 0 ∨ s = 0 then .ok none
       else .ok (some (encode_sig r s S.fmt))) := by
  obtain ⟨h1, f1, m1, o1⟩ := S
  obtain ⟨d1, c1⟩ := pv
  have ho : o1 = "BSI" := hopt
  have hc : c1 = some C := hcv
  subst ho
  subst hc
  exact do_sign_BSI_eq h1 f1 m1 C d1 msg k

theorem claim_C3_witness :
    ECSchnorr.sign_k ⟨fun _ => [2], "ITUPLE", 10, "BSI"⟩ [] ⟨2, some toyCurve⟩ 1
      = .ok (some (some (2, 2))) := by
  rw [claim_C3_bsi_formula ⟨fun _ => [2], "ITUPLE", 10, "BSI"⟩ toyCurve
    ⟨2, some toyCurve⟩ [] 1 rfl rfl]
  rfl

/-- C6: for every variant, message, and public key, `verify` returns false
whenever the decoded signature has a null `r` (decoding failure), or
`r > 2^(8*size) - 1`, or `s = 0`, or `s > n - 1`; these bound checks are
applied identically in all four variants, before any curve arithmetic or
hashing (the result is false for every hasher and every curve operation
implementation, which the statement expresses by quantifying over the whole
signer and public key). -/
theorem claim_C6_verify_bounds (S : ECSchnorr) (msg : List Nat) (sig : Sig)
    (pu : ECPublicKey)
    (hopt : S.option = "ISO" ∨ S.option = "ISOx" ∨ S.option = "BSI" ∨
      S.option = "LIBSECP")
    (hbad : (decode_sig sig S.fmt).1 = none ∨
      (∃ r, (decode_sig sig S.fmt).1 = some r ∧
        2 ^ ((pu.curve.size >>> 3) * 8) - 1 < r) ∨
      (decode_sig sig S.fmt).2 = 0 ∨
      pu.curve.order - 1 < (decode_sig sig S.fmt).2) :
    S.verify msg sig pu = .ok false := by
  rcases sig with _ | ⟨r, s⟩
  · exact verify_malformed_false S msg pu
  · apply verify_bounds_false
    simp only [decode_sig] at hbad
    rcases hbad with h | h | h | h
    · exact absurd h (by simp)
    · obtain ⟨r2, hr2, hgt⟩ := h
      have hr : r2 = r := by
        simpa using hr2.symm
      subst hr
      exact Or.inl hgt
    · exact Or.inr (Or.inl h)
    · exact Or.inr (Or.inr h)

theorem claim_C6_witness :
    ECSchnorr.verify ⟨fun _ => [2], "ITUPLE", 10, "ISO"⟩ [] (some (3, 0))
      ⟨toyCurve.smul 1 toyCurve.generator, toyCurve⟩ = .ok false :=
  claim_C6_verify_bounds ⟨fun _ => [2], "ITUPLE", 10, "ISO"⟩ [] (some (3, 0))
    ⟨toyCurve.smul 1 toyCurve.generator, toyCurve⟩ (Or.inl rfl)
    (Or.inr (Or.inr (Or.inl rfl)))

/-- C7: `sign_with_nonce` is deterministic — it is a pure function of the
message, private key, nonce, variant, hash constructor and output format;
two signers agreeing on those configuration fields (the retry bound may
differ, it is not consulted) produce identical outputs on identical
inputs. -/
theorem claim_C7_deterministic (S1 S2 : ECSchnorr) (msg : List Nat)
    (pv : ECPrivateKey) (k : Nat) (hh : S1.hasher = S2.hasher)
    (ho : S1.option = S2.option) (hf : S1.fmt = S2.fmt) :
    S1.sign_k msg pv k = S2.sign_k msg pv k := by
  obtain ⟨h1, f1, m1, o1⟩ := S1
  obtain ⟨h2, f2, m2, o2⟩ := S2
  have hh2 : h1 = h2 := hh
  have ho2 : o1 = o2 := ho
  have hf2 : f1 = f2 := hf
  subst hh2
  subst ho2
  subst hf2
  rfl

theorem claim_C7_witness :
    ECSchnorr.sign_k ⟨fun _ => [2], "ITUPLE", 10, "ISO"⟩ [] ⟨1, some toyCurve⟩ 1
      = ECSchnorr.sign_k ⟨fun _ => [2], "ITUPLE", 3, "ISO"⟩ [] ⟨1, some toyCurve⟩ 1 :=
  claim_C7_deterministic ⟨fun _ => [2], "ITUPLE", 10, "ISO"⟩
    ⟨fun _ => [2], "ITUPLE", 3, "ISO"⟩ [] ⟨1, some toyCurve⟩ 1 rfl rfl rfl

/-- C8: construction succeeds exactly when the variant tag is one of ISO,
ISOx, BSI, LIBSECP and the encoding tag is among the codec's supported
formats (otherwise it raises, modelled as `Except.error`); on success it
stores the hasher, format, variant and a retry bound of 10, validating
nothing else (the hasher and the remaining arguments are arbitrary). -/
theorem claim_C8_constructor (formats : List String)
    (hasher : List Nat → List Nat) (opt fmt : String) :
    ((∃ S, ECSchnorr.mk_checked formats hasher opt fmt = .ok S) ↔
      opt ∈ ["ISO", "ISOx", "BSI", "LIBSECP"] ∧ fmt ∈ formats) ∧
    (opt ∈ ["ISO", "ISOx", "BSI", "LIBSECP"] → fmt ∈ formats →
      ECSchnorr.mk_checked formats hasher opt fmt = .ok ⟨hasher, fmt, 10, opt⟩) := by
  by_cases h1 : opt ∈ ["ISO", "ISOx", "BSI", "LIBSECP"] <;>
    by_cases h2 : fmt ∈ formats <;>
      simp [ECSchnorr.mk_checked, h1, h2]

theorem claim_C8_witness :
    ECSchnorr.mk_checked ["ITUPLE"] (fun _ => [2]) "ISO" "ITUPLE"
      = .ok ⟨fun _ => [2], "ITUPLE", 10, "ISO"⟩ :=
  (claim_C8_constructor ["ITUPLE"] (fun _ => [2]) "ISO" "ITUPLE").2
    (by simp) (by simp)

/-- C9: the signer's configuration fields are never mutated by `sign`,
`sign_with_nonce` or `verify`: in the state-passing translation of each
operation, the signer record coming out equals the one going in (hence
every field — hash constructor, variant tag, output format, retry
bound — is preserved). -/
theorem claim_C9_signer_immutable (S : ECSchnorr) (msg : List Nat)
    (pv : ECPrivateKey) (rng : Nat → Nat) (k : Nat) (sig : Sig)
    (pu : ECPublicKey) :
    (S.sign_st msg pv rng).2 = S ∧ (S.do_sign_st msg pv k).2 = S ∧
      (S.verify_st msg sig pu).2 = S :=
  ⟨signAttempts_st_snd S msg pv rng (S.maxtries - 1) 1, rfl, rfl⟩

/-- C10: under the LIBSECP variant, `sign_with_nonce` applies no rejection
test to `r` or `s`: whenever the digest value `h` (computed from the
normalized point `Q2` and effective nonce `k2`) satisfies `h ≠ 0` and
`h ≤ n`, and `(k2 - h*d) mod n = 0`, the function returns an encoded
signature with `s = 0` rather than null — a signature `verify` always
rejects through its `s = 0` bound check. -/
theorem claim_C10_libsecp_no_s_check (S : ECSchnorr) (C : Curve)
    (pv : ECPrivateKey) (msg : List Nat) (k : Nat)
    (hopt : S.option = "LIBSECP") (hcv : pv.curve = some C)
    (k2 : Nat) (Q2 : Point) (h : Nat)
    (hk2 : k2 = if (C.smul k C.generator).y % 2 = 1 then C.order - k else k)
    (hQ2 : Q2 = if (C.smul k C.generator).y % 2 = 1
      then C.smul (C.order - k) C.generator else C.smul k C.generator)
    (hh : h = fromBytesBE (S.hasher (toBytesBE (C.size >>> 3) Q2.x ++ msg)))
    (hh0 : h ≠ 0) (hhn : h ≤ C.order)
    (hs : ((k2 : Int) - (h : Int) * (pv.d : Int)) % ((C.order : Nat) : Int) = 0) :
    S.sign_k msg pv k = .ok (some (encode_sig Q2.x 0 S.fmt)) ∧
      ∀ (msg2 : List Nat) (pu : ECPublicKey),
        S.verify msg2 (encode_sig Q2.x 0 S.fmt) pu = .ok false := by
  constructor
  · obtain ⟨h1, f1, m1, o1⟩ := S
    obtain ⟨d1, c1⟩ := pv
    have ho : o1 = "LIBSECP" := hopt
    have hc : c1 = some C := hcv
    subst ho
    subst hc
    unfold ECSchnorr.sign_k
    rw [do_sign_LIBSECP_eq]
    dsimp only
    rw [← hQ2, ← hh, ← hk2]
    rw [if_neg (by omega)]
    have hs2 : ((k2 : Int) - (h : Int) * (d1 : Int)) % ((C.order : Nat) : Int) = 0 := hs
    rw [hs2]
    rfl
  · intro msg2 pu
    exact verify_bounds_false S msg2 Q2.x 0 pu (Or.inr (Or.inl rfl))

theorem claim_C10_witness :
    ECSchnorr.sign_k ⟨fun _ => [1], "ITUPLE", 10, "LIBSECP"⟩ [] ⟨2, some toyCurve⟩ 2
        = .ok (some (some (2, 0))) ∧
      ECSchnorr.verify ⟨fun _ => [1], "ITUPLE", 10, "LIBSECP"⟩ [] (some (2, 0))
        ⟨toyCurve.smul 2 toyCurve.generator, toyCurve⟩ = .ok false := by
  have h10 := claim_C10_libsecp_no_s_check ⟨fun _ => [1], "ITUPLE", 10, "LIBSECP"⟩
    toyCurve ⟨2, some toyCurve⟩ [] 2 rfl rfl 2 (toyCurve.smul 2 toyCurve.generator) 1
    (by decide) (by decide) (by decide) (by decide) (by decide) (by decide)
  exact ⟨h10.1, h10.2 [] ⟨toyCurve.smul 2 toyCurve.generator, toyCurve⟩⟩

/-- C2 counterexample: the loop `for i in range(1, self.maxtries)` performs
only 9 attempts, not 10.  With a random stream whose tenth value would be
accepted and whose first nine are rejected, `sign` returns null even though
attempt 10 is not rejected — refuting "returns null only after all 10
attempts are rejected". -/
theorem claim_C2_counterexample :
    ECSchnorr.sign
        ⟨fun l => if l.head? = some 3 then [1] else [0], "ITUPLE", 10, "ISO"⟩
        [] ⟨1, some toyCurve⟩ (fun i => if i = 10 then 3 else 1) = .ok none ∧
      ECSchnorr.do_sign
        ⟨fun l => if l.head? = some 3 then [1] else [0], "ITUPLE", 10, "ISO"⟩
        [] ⟨1, some toyCurve⟩ ((fun i => if i = 10 then 3 else 1) 10)
        = .ok (some (some (1, 4))) := by
  constructor <;> rfl

/-- C2 (amended): for every message and private key, `sign` performs up to
`maxtries - 1 = 9` iterations (loop indices 1 through 9), attempt `i`
drawing the i-th scalar of the random-scalar source and attempting
`sign_with_nonce`; it returns the first non-null result, and returns null
(an `ok none`, not an exception) exactly when all 9 attempts are
rejected. -/
theorem claim_C2_retry_loop (S : ECSchnorr) (msg : List Nat)
    (pv : ECPrivateKey) (rng : Nat → Nat) (hmt : S.maxtries = 10) :
    (S.sign msg pv rng = .ok none ↔
      ∀ j, 1 ≤ j → j ≤ 9 → S.do_sign msg pv (rng j) = .ok none) ∧
    ∀ sig, (S.sign msg pv rng = .ok (some sig) ↔
      ∃ j, 1 ≤ j ∧ j ≤ 9 ∧ S.do_sign msg pv (rng j) = .ok (some sig) ∧
        ∀ j2, 1 ≤ j2 → j2 < j → S.do_sign msg pv (rng j2) = .ok none) := by
  unfold ECSchnorr.sign
  rw [hmt]
  constructor
  · rw [signAttempts_none_iff]
    constructor
    · intro h j h1 h2
      exact h j h1 (by omega)
    · intro h j h1 h2
      exact h j h1 (by omega)
  · intro sig
    rw [signAttempts_some_iff]
    constructor
    · rintro ⟨j, h1, h2, h3, h4⟩
      exact ⟨j, h1, by omega, h3, h4⟩
    · rintro ⟨j, h1, h2, h3, h4⟩
      exact ⟨j, h1, by omega, h3, h4⟩

theorem claim_C2_witness :
    ECSchnorr.sign ⟨fun _ => [2], "ITUPLE", 10, "ISO"⟩ [] ⟨1, some toyCurve⟩
      (fun _ => 1) = .ok (some (some (2, 3))) := by
  refine ((claim_C2_retry_loop ⟨fun _ => [2], "ITUPLE", 10, "ISO"⟩ []
    ⟨1, some toyCurve⟩ (fun _ => 1) rfl).2 (some (2, 3))).mpr
    ⟨1, le_rfl, by omega, by rfl, ?_⟩
  intro j2 h1 h2
  omega

/-- C4: under the LIBSECP variant, for a nonce `k` in `[1, n-1]` whose point
`Q = k*G` has odd y-coordinate, `sign_with_nonce` replaces `k` by
`k2 = n - k` and recomputes `Q` before hashing; the recomputed point has
even y (by the curve collaborator's negation-parity property), the returned
`r` is its raw x-coordinate (not reduced mod n), and
`s = (k2 - h*d) mod n` where `h` is the digest of `bytes(Q.x) ‖ message`
interpreted as a big-endian integer. -/
theorem claim_C4_libsecp_parity (S : ECSchnorr) (C : Curve) (L : CurveLaws C)
    (pv : ECPrivateKey) (msg : List Nat) (k : Nat)
    (hopt : S.option = "LIBSECP") (hcv : pv.curve = some C)
    (hk0 : 0 < k) (hkn : k < C.order)
    (hodd : (C.smul k C.generator).y % 2 = 1)
    (k2 : Nat) (h : Nat) (hk2 : k2 = C.order - k)
    (hh : h = fromBytesBE (S.hasher (toBytesBE (C.size >>> 3)
      (C.smul k2 C.generator).x ++ msg))) :
    (C.smul k2 C.generator).y % 2 = 0 ∧
    S.sign_k msg pv k =
      (if h = 0 ∨ h > C.order then .ok none
       else .ok (some (encode_sig (C.smul k2 C.generator).x
         ((((k2 : Int) - (h : Int) * (pv.d : Int)) % ((C.order : Nat) : Int)).toNat)
         S.fmt))) := by
  constructor
  · rw [hk2]
    exact L.y_parity k hkn hk0 hodd
  · obtain ⟨h1, f1, m1, o1⟩ := S
    obtain ⟨d1, c1⟩ := pv
    have ho : o1 = "LIBSECP" := hopt
    have hc : c1 = some C := hcv
    subst ho
    subst hc
    unfold ECSchnorr.sign_k
    rw [do_sign_LIBSECP_eq]
    dsimp only
    rw [if_pos hodd, if_pos hodd, ← hk2, ← hh]

theorem claim_C4_witness :
    (toyCurve.smul 2 toyCurve.generator).y % 2 = 0 ∧
      ECSchnorr.sign_k ⟨fun _ => [1], "ITUPLE", 10, "LIBSECP"⟩ [] ⟨2, some toyCurve⟩ 3
        = .ok (some (some (2, 0))) := by
  have h4 := claim_C4_libsecp_parity ⟨fun _ => [1], "ITUPLE", 10, "LIBSECP"⟩
    toyCurve toyCurve_laws ⟨2, some toyCurve⟩ [] 3 rfl rfl (by decide) (by decide)
    (by decide) 2 1 (by decide) (by decide)
  exact ⟨h4.1, h4.2.trans (by rfl)⟩

/-- C5: under the LIBSECP variant `sign_with_nonce` computes `h` as the
full-width integer value of the digest and returns null exactly when
`h = 0` or `h > n` — in particular a digest with `h = n` is not rejected;
under ISO, ISOx and BSI every produced signature carries
`r = digest mod n`, the digest reduced unconditionally. -/
theorem claim_C5_digest_reduction (S : ECSchnorr) (C : Curve)
    (pv : ECPrivateKey) (msg : List Nat) (k : Nat)
    (hcv : pv.curve = some C) (hn : 0 < C.order) :
    (S.option = "LIBSECP" →
      ∀ h : Nat,
        h = fromBytesBE (S.hasher (toBytesBE (C.size >>> 3)
          (if (C.smul k C.generator).y % 2 = 1
           then C.smul (C.order - k) C.generator
           else C.smul k C.generator).x ++ msg)) →
        ((S.sign_k msg pv k = .ok none ↔ (h = 0 ∨ h > C.order)) ∧
         (h = C.order → S.sign_k msg pv k ≠ .ok none))) ∧
    ((S.option = "ISO" ∨ S.option = "ISOx" ∨ S.option = "BSI") →
      ∀ r s : Nat, S.sign_k msg pv k = .ok (some (some (r, s))) →
        r = fromBytesBE (S.hasher (
          if S.option = "ISO"
          then toBytesBE (C.size >>> 3) (C.smul k C.generator).x ++
               toBytesBE (C.size >>> 3) (C.smul k C.generator).y ++ msg
          else if S.option = "ISOx"
          then toBytesBE (C.size >>> 3) (C.smul k C.generator).x ++ msg
          else msg ++ toBytesBE (C.size >>> 3)
            ((C.smul k C.generator).x % C.order))) % C.order) := by
  obtain ⟨h1, f1, m1, o1⟩ := S
  obtain ⟨d1, c1⟩ := pv
  have hc : c1 = some C := hcv
  subst hc
  constructor
  · intro ho h hdef
    have ho2 : o1 = "LIBSECP" := ho
    subst ho2
    unfold ECSchnorr.sign_k
    rw [do_sign_LIBSECP_eq]
    dsimp only
    rw [← hdef]
    constructor
    · by_cases hcond : h = 0 ∨ h > C.order
      · rw [if_pos hcond]
        exact iff_of_true rfl hcond
      · rw [if_neg hcond]
        exact iff_of_false (by simp) hcond
    · intro hEq
      rw [if_neg (by omega)]
      simp
  · intro ho r s
    rcases ho with hcase | hcase | hcase
    · have ho2 : o1 = "ISO" := hcase
      subst ho2
      unfold ECSchnorr.sign_k
      rw [do_sign_ISO_eq]
      dsimp only
      intro hsig
      rw [if_pos (show ("ISO" : String) = "ISO" from rfl)]
      split at hsig
      · exact absurd hsig (by simp)
      · simp only [encode_sig, Except.ok.injEq, Option.some.injEq,
          Prod.mk.injEq] at hsig
        rw [← hsig.1]
    · have ho2 : o1 = "ISOx" := hcase
      subst ho2
      unfold ECSchnorr.sign_k
      rw [do_sign_ISOx_eq]
      dsimp only
      intro hsig
      rw [if_neg (show ¬(("ISOx" : String) = "ISO") from by decide),
        if_pos (show ("ISOx" : String) = "ISOx" from rfl)]
      split at hsig
      · exact absurd hsig (by simp)
      · simp only [encode_sig, Except.ok.injEq, Option.some.injEq,
          Prod.mk.injEq] at hsig
        rw [← hsig.1]
    · have ho2 : o1 = "BSI" := hcase
      subst ho2
      unfold ECSchnorr.sign_k
      rw [do_sign_BSI_eq]
      dsimp only
      intro hsig
      rw [if_neg (show ¬(("BSI" : String) = "ISO") from by decide),
        if_neg (show ¬(("BSI" : String) = "ISOx") from by decide)]
      split at hsig
      · exact absurd hsig (by simp)
      · simp only [encode_sig, Except.ok.injEq, Option.some.injEq,
          Prod.mk.injEq] at hsig
        rw [← hsig.1]

theorem claim_C5_witness :
    ECSchnorr.sign_k ⟨fun _ => [5], "ITUPLE", 10, "LIBSECP"⟩ []
      ⟨1, some toyCurve⟩ 2 ≠ .ok none :=
  ((claim_C5_digest_reduction ⟨fun _ => [5], "ITUPLE", 10, "LIBSECP"⟩ toyCurve
    ⟨1, some toyCurve⟩ [] 2 rfl (by decide)).1 rfl 5 (by decide)).2 (by decide)

/-- Casting a product of naturals into the signed round-trip lemma. -/
theorem int_sub_roundtrip2 (k a b n : Nat) (hn : 0 < n) :
    ((((k : Int) - (a : Int) * (b : Int)) % ((n : Nat) : Int)).toNat + a * b) % n
      = k % n := by
  have hcast : ((a * b : Nat) : Int) = (a : Int) * (b : Int) := by
    push_cast
    ring
  rw [← hcast]
  exact int_sub_roundtrip k (a * b) n hn

/-- C1 counterexample: the round trip fails under LIBSECP as stated.  Both
failure modes are exhibited on order-5 curve instances satisfying the
collaborator contract: (a) a nonce/key pair whose response scalar is
`s = 0` — the signer returns a signature (no rejection test covers `s`)
that the verifier's bound check rejects; (b) a curve whose x-coordinates
exceed the order — the verifier compares `R.x mod n` with the raw `r = Q.x`
and fails.  In both cases `sign_with_nonce` is non-null, the public key is
`d*G`, and `verify` returns false. -/
theorem claim_C1_counterexample :
    (CurveLaws toyCurve ∧
      ECSchnorr.sign_k ⟨fun _ => [1], "ITUPLE", 10, "LIBSECP"⟩ []
        ⟨2, some toyCurve⟩ 2 = .ok (some (some (2, 0))) ∧
      ECSchnorr.verify ⟨fun _ => [1], "ITUPLE", 10, "LIBSECP"⟩ [] (some (2, 0))
        ⟨toyCurve.smul 2 toyCurve.generator, toyCurve⟩ = .ok false) ∧
    (CurveLaws shiftCurve ∧
      ECSchnorr.sign_k ⟨fun _ => [1], "ITUPLE", 10, "LIBSECP"⟩ []
        ⟨3, some shiftCurve⟩ 1 = .ok (some (some (6, 3))) ∧
      ECSchnorr.verify ⟨fun _ => [1], "ITUPLE", 10, "LIBSECP"⟩ [] (some (6, 3))
        ⟨shiftCurve.smul 3 shiftCurve.generator, shiftCurve⟩ = .ok false) :=
  ⟨⟨toyCurve_laws, rfl, rfl⟩, ⟨shiftCurve_laws, rfl, rfl⟩⟩

/-- C1 (amended): for every variant, message, private key with a bound curve
satisfying the collaborator contract, and nonce, if `sign_with_nonce`
returns a non-null signature then `verify` accepts it under the matching
public key `W = d*G` — unconditionally for ISO, ISOx and BSI, and for
LIBSECP under the additional conditions (forced by the counterexample) that
the returned signature has `s ≠ 0` and its `r` (the raw ephemeral
x-coordinate) is below the curve order. -/
theorem claim_C1_roundtrip (S : ECSchnorr) (C : Curve) (L : CurveLaws C)
    (pv : ECPrivateKey) (pu : ECPublicKey) (msg : List Nat) (k : Nat)
    (sig : Sig) (hcv : pv.curve = some C) (hpu : pu.curve = C)
    (hW : pu.W = C.smul pv.d C.generator)
    (hsig : S.sign_k msg pv k = .ok (some sig))
    (hvariant : S.option = "ISO" ∨ S.option = "ISOx" ∨ S.option = "BSI" ∨
      (S.option = "LIBSECP" ∧
        ∀ r s : Nat, sig = some (r, s) → s ≠ 0 ∧ r < C.order)) :
    S.verify msg sig pu = .ok true := by
  obtain ⟨h1, f1, m1, o1⟩ := S
  obtain ⟨d1, c1⟩ := pv
  obtain ⟨W1, cu1⟩ := pu
  have hc : c1 = some C := hcv
  have hp : C = cu1 := hpu.symm
  subst hc
  subst hp
  have hw : W1 = C.smul d1 C.generator := hW
  subst hw
  have hle := L.order_le
  have hpos := L.order_pos
  rcases hvariant with ho | ho | ho | ⟨ho, hring⟩
  · -- ISO
    have ho2 : o1 = "ISO" := ho
    subst ho2
    unfold ECSchnorr.sign_k at hsig
    rw [do_sign_ISO_eq] at hsig
    dsimp only at hsig
    set rv := fromBytesBE (h1 (toBytesBE (C.size >>> 3) (C.smul k C.generator).x ++
      toBytesBE (C.size >>> 3) (C.smul k C.generator).y ++ msg)) % C.order with hrv
    set sv := (k + rv * d1) % C.order with hsv
    by_cases hcond : rv = 0 ∨ sv = 0
    · rw [if_pos hcond] at hsig
      exact absurd hsig (by simp)
    · rw [if_neg hcond] at hsig
      simp only [encode_sig, Except.ok.injEq, Option.some.injEq] at hsig
      subst hsig
      have hrlt : rv < C.order := hrv ▸ Nat.mod_lt _ hpos
      have hslt : sv < C.order := hsv ▸ Nat.mod_lt _ hpos
      rw [verify_ISO_eq]
      dsimp only
      have hb : ¬(2 ^ ((C.size >>> 3) * 8) - 1 < rv ∨ sv = 0 ∨
          C.order - 1 < sv) := by omega
      rw [if_neg hb]
      have hQ : C.sub (C.smul sv C.generator) (C.smul rv (C.smul d1 C.generator))
          = C.smul k C.generator := by
        rw [L.smul_smul, L.sub_smul,
          ← L.smul_mod (sv + (C.order - rv * d1 % C.order))]
        conv_rhs => rw [← L.smul_mod k]
        rw [hsv, nat_add_roundtrip k (rv * d1) C.order hpos]
      rw [hQ, ← hrv, beq_self_eq_true]
  · -- ISOx
    have ho2 : o1 = "ISOx" := ho
    subst ho2
    unfold ECSchnorr.sign_k at hsig
    rw [do_sign_ISOx_eq] at hsig
    dsimp only at hsig
    set rv := fromBytesBE (h1 (toBytesBE (C.size >>> 3) (C.smul k C.generator).x ++
      msg)) % C.order with hrv
    set sv := (k + rv * d1) % C.order with hsv
    by_cases hcond : rv = 0 ∨ sv = 0
    · rw [if_pos hcond] at hsig
      exact absurd hsig (by simp)
    · rw [if_neg hcond] at hsig
      simp only [encode_sig, Except.ok.injEq, Option.some.injEq] at hsig
      subst hsig
      have hrlt : rv < C.order := hrv ▸ Nat.mod_lt _ hpos
      have hslt : sv < C.order := hsv ▸ Nat.mod_lt _ hpos
      rw [verify_ISOx_eq]
      dsimp only
      have hb : ¬(2 ^ ((C.size >>> 3) * 8) - 1 < rv ∨ sv = 0 ∨
          C.order - 1 < sv) := by omega
      rw [if_neg hb]
      have hQ : C.sub (C.smul sv C.generator) (C.smul rv (C.smul d1 C.generator))
          = C.smul k C.generator := by
        rw [L.smul_smul, L.sub_smul,
          ← L.smul_mod (sv + (C.order - rv * d1 % C.order))]
        conv_rhs => rw [← L.smul_mod k]
        rw [hsv, nat_add_roundtrip k (rv * d1) C.order hpos]
      rw [hQ, ← hrv, beq_self_eq_true]
  · -- BSI
    have ho2 : o1 = "BSI" := ho
    subst ho2
    unfold ECSchnorr.sign_k at hsig
    rw [do_sign_BSI_eq] at hsig
    dsimp only at hsig
    set rv := fromBytesBE (h1 (msg ++ toBytesBE (C.size >>> 3)
      ((C.smul k C.generator).x % C.order))) % C.order with hrv
    set sv := (((k : Int) - (rv : Int) * (d1 : Int)) % ((C.order : Nat) : Int)).toNat
      with hsv
    by_cases hcond : rv = 0 ∨ sv = 0
    · rw [if_pos hcond] at hsig
      exact absurd hsig (by simp)
    · rw [if_neg hcond] at hsig
      simp only [encode_sig, Except.ok.injEq, Option.some.injEq] at hsig
      subst hsig
      have hrlt : rv < C.order := hrv ▸ Nat.mod_lt _ hpos
      have hslt : sv < C.order := by
        have hn0 : ((C.order : Nat) : Int) ≠ 0 := by
          exact_mod_cast hpos.ne'
        have he1 : 0 ≤ ((k : Int) - (rv : Int) * (d1 : Int)) % ((C.order : Nat) : Int) :=
          Int.emod_nonneg _ hn0
        have he2 : ((k : Int) - (rv : Int) * (d1 : Int)) % ((C.order : Nat) : Int)
            < ((C.order : Nat) : Int) :=
          Int.emod_lt_of_pos _ (by exact_mod_cast hpos)
        rw [hsv]
        omega
      rw [verify_BSI_eq]
      dsimp only
      have hb : ¬(2 ^ ((C.size >>> 3) * 8) - 1 < rv ∨ sv = 0 ∨
          C.order - 1 < sv) := by omega
      rw [if_neg hb]
      have hQ : C.add (C.smul sv C.generator) (C.smul rv (C.smul d1 C.generator))
          = C.smul k C.generator := by
        rw [L.smul_smul, L.add_smul, ← L.smul_mod (sv + rv * d1)]
        conv_rhs => rw [← L.smul_mod k]
        rw [hsv, int_sub_roundtrip2 k rv d1 C.order hpos]
      rw [hQ, ← hrv, beq_self_eq_true]
  · -- LIBSECP
    have ho2 : o1 = "LIBSECP" := ho
    subst ho2
    unfold ECSchnorr.sign_k at hsig
    rw [do_sign_LIBSECP_eq] at hsig
    dsimp only at hsig
    set Q2 := if (C.smul k C.generator).y % 2 = 1
      then C.smul (C.order - k) C.generator else C.smul k C.generator with hQ2
    set k2 := if (C.smul k C.generator).y % 2 = 1 then C.order - k else k with hk2
    set h := fromBytesBE (h1 (toBytesBE (C.size >>> 3) Q2.x ++ msg)) with hh
    have hQk : Q2 = C.smul k2 C.generator := by
      rw [hQ2, hk2]
      by_cases hpar : (C.smul k C.generator).y % 2 = 1
      · rw [if_pos hpar, if_pos hpar]
      · rw [if_neg hpar, if_neg hpar]
    by_cases hcond : h = 0 ∨ h > C.order
    · rw [if_pos hcond] at hsig
      exact absurd hsig (by simp)
    · rw [if_neg hcond] at hsig
      set sv := (((k2 : Int) - (h : Int) * (d1 : Int)) % ((C.order : Nat) : Int)).toNat
        with hsv
      simp only [encode_sig, Except.ok.injEq, Option.some.injEq] at hsig
      subst hsig
      obtain ⟨hs0, hrn⟩ := hring Q2.x sv rfl
      have hx : Q2.x < 2 ^ ((C.size >>> 3) * 8) := by
        rw [hQk]
        exact L.x_lt k2
      have hslt : sv < C.order := by
        have hn0 : ((C.order : Nat) : Int) ≠ 0 := by
          exact_mod_cast hpos.ne'
        have he1 : 0 ≤ ((k2 : Int) - (h : Int) * (d1 : Int)) % ((C.order : Nat) : Int) :=
          Int.emod_nonneg _ hn0
        have he2 : ((k2 : Int) - (h : Int) * (d1 : Int)) % ((C.order : Nat) : Int)
            < ((C.order : Nat) : Int) :=
          Int.emod_lt_of_pos _ (by exact_mod_cast hpos)
        rw [hsv]
        omega
      rw [verify_LIBSECP_eq]
      dsimp only
      have hb : ¬(2 ^ ((C.size >>> 3) * 8) - 1 < Q2.x ∨ sv = 0 ∨
          C.order - 1 < sv) := by omega
      rw [if_neg hb]
      rw [← hh]
      have hR : C.add (C.smul sv C.generator) (C.smul h (C.smul d1 C.generator))
          = C.smul k2 C.generator := by
        rw [L.smul_smul, L.add_smul, ← L.smul_mod (sv + h * d1)]
        conv_rhs => rw [← L.smul_mod k2]
        rw [hsv, int_sub_roundtrip2 k2 h d1 C.order hpos]
      rw [hR, ← hQk, Nat.mod_eq_of_lt hrn, beq_self_eq_true]

theorem claim_C1_witness :
    ECSchnorr.verify ⟨fun _ => [2], "ITUPLE", 10, "ISO"⟩ [] (some (2, 3))
      ⟨toyCurve.smul 1 toyCurve.generator, toyCurve⟩ = .ok true :=
  claim_C1_roundtrip ⟨fun _ => [2], "ITUPLE", 10, "ISO"⟩ toyCurve toyCurve_laws
    ⟨1, some toyCurve⟩ ⟨toyCurve.smul 1 toyCurve.generator, toyCurve⟩ [] 1
    (some (2, 3)) rfl rfl rfl (by rfl) (Or.inl rfl)

end ECpy
